import Mathlib

/-!
Shallow embedding of `scripts/fix-tenancy-types.py`.

The script reads each target file, applies four `re.sub` substitutions in
order to the whole content, unconditionally rewrites the file, and prints a
confirmation line; `main` runs this over four hardcoded paths and prints a
final message.

Strings are modelled as `List Char`.  Each of the four regexes is compiled
by hand into a deterministic matcher; a comment on each matcher records the
regex it embeds and why the compilation is faithful to Python `re`
semantics (leftmost match, greedy quantifiers, non-overlapping global
substitution).
-/

namespace TenancyFix

/-- Python regex `\s` restricted to the ASCII range (the target files are
ASCII source text): space, tab, newline, carriage return, vertical tab,
form feed. -/
def isSpaceChar (c : Char) : Bool :=
  c = ' ' || c = '\t' || c = '\n' || c = '\r' || c = '\x0b' || c = '\x0c'

/-- Python regex `\w` restricted to the ASCII range: letters, digits and
underscore.  Used only for the `\b` assertion of rule 1. -/
def isWordChar (c : Char) : Bool :=
  c.isAlphanum || c = '_'

/-- The `\b` assertion of rule 1, evaluated just before a word character
(the pattern continues with `o`): it holds at the start of the string, or
when the preceding character is not a word character. -/
def boundaryOk (prev : Option Char) : Bool :=
  match prev with
  | none => true
  | some c => !isWordChar c

/-- Consume a literal piece of a pattern: if `pat` is a prefix of `s`,
return the rest of `s`, otherwise fail. -/
def litStrip (pat : List Char) (s : List Char) : Option (List Char) :=
  if pat.isPrefixOf s then some (s.drop pat.length) else none

/-- Consume `\s*` by maximal munch.  In every pattern below, `\s*` is
immediately followed by a literal starting with a non-space character
(`(`, `=`, `s` or `h`), so the greedy backtracking of Python `re`
succeeds exactly on the maximal run of whitespace: any shorter run leaves
a whitespace character where the literal's non-space character is
required. -/
def spaceStrip (s : List Char) : List Char :=
  s.dropWhile isSpaceChar

/-- The number of characters `\s*` consumes at the head of `s`. -/
def spaceCount (s : List Char) : Nat :=
  (s.takeWhile isSpaceChar).length

/- Pattern and replacement literals of the four rules
   (`\x7b`/`\x7d` are the brace characters). -/

def pat1a : List Char := "onError:".toList
def pat1b : List Char := "(error)".toList
def arrowLit : List Char := "=>".toList
def rule1Rep : List Char := "onError: (error: Error) =>".toList

def pat2a : List Char := "onChange=\x7b(e)".toList
def nameSet : List Char := "setNewMemberUserId(".toList
def nameHC : List Char := "handleChange(".toList
def rule2RepPre : List Char := "onChange=\x7b(e: React.ChangeEvent<HTMLInputElement>) => ".toList

def textareaTag : List Char := "<Textarea".toList
def onChangeE : List Char := "onChange=\x7b(e)".toList
def onChangeOpen : List Char := "onChange=\x7b".toList
def rule3Ann : List Char := "(e: React.ChangeEvent<HTMLTextareaElement>)".toList

def pat4a : List Char := "\x7bmembers.map((member)".toList
def rule4Rep : List Char := "\x7bmembers.map((member: any) =>".toList

/-- Matcher for rule 1, regex `\bonError:\s*\(error\)\s*=>` with
replacement `onError: (error: Error) =>` (line 21 of the script).
Returns the replacement text and the number of characters matched. -/
def tryRule1 (prev : Option Char) (s : List Char) : Option (List Char × Nat) :=
  match boundaryOk prev with
  | false => none
  | true =>
    match litStrip pat1a s with
    | none => none
    | some s1 =>
      match litStrip pat1b (spaceStrip s1) with
      | none => none
      | some s2 =>
        match litStrip arrowLit (spaceStrip s2) with
        | none => none
        | some _ =>
          some (rule1Rep,
            pat1a.length + spaceCount s1 + pat1b.length + spaceCount s2 + arrowLit.length)

/-- Matcher for rule 2, regex
`onChange=\{(\(e\))\s*=>\s*(setNewMemberUserId|handleChange)\(` with
replacement `onChange={(e: React.ChangeEvent<HTMLInputElement>) => \2(`
(lines 24-28).  The two alternatives of group 2 start with distinct
characters, so at most one can match and the alternation is
deterministic; the replacement template re-emits the matched name. -/
def tryRule2 (_prev : Option Char) (s : List Char) : Option (List Char × Nat) :=
  match litStrip pat2a s with
  | none => none
  | some s1 =>
    match litStrip arrowLit (spaceStrip s1) with
    | none => none
    | some s2 =>
      match litStrip nameSet (spaceStrip s2) with
      | some _ =>
        some (rule2RepPre ++ nameSet,
          pat2a.length + spaceCount s1 + arrowLit.length + spaceCount s2 + nameSet.length)
      | none =>
        match litStrip nameHC (spaceStrip s2) with
        | some _ =>
          some (rule2RepPre ++ nameHC,
            pat2a.length + spaceCount s1 + arrowLit.length + spaceCount s2 + nameHC.length)
        | none => none

/-- Greedy search for the `[^>]*` of rule 3: the largest `k ≤ bound` such
that `onChange={(e)` starts at position `k` of `t`.  Python backtracks the
greedy star from the longest candidate downwards, so the largest viable
`k` wins. -/
def findGreedy (t : List Char) : Nat → Option Nat
  | 0 => if onChangeE.isPrefixOf t then some 0 else none
  | k + 1 =>
    if onChangeE.isPrefixOf (t.drop (k + 1)) then some (k + 1)
    else findGreedy t k

/-- Matcher for rule 3, regex `(<Textarea[^>]*onChange=\{)\(e\)` with
replacement `\1(e: React.ChangeEvent<HTMLTextareaElement>)` (lines
31-35).  After the literal `<Textarea`, the greedy `[^>]*` may consume any
run of non-`>` characters (the bound is the length of the `>`-free run),
and backtracking picks the largest such run that is followed by
`onChange={(e)`; group 1 is everything up to and including `onChange={`. -/
def tryRule3 (_prev : Option Char) (s : List Char) : Option (List Char × Nat) :=
  match litStrip textareaTag s with
  | none => none
  | some t =>
    match findGreedy t ((t.takeWhile (fun c => !(c == '>'))).length) with
    | none => none
    | some k =>
      some (textareaTag ++ t.take k ++ onChangeOpen ++ rule3Ann,
            textareaTag.length + k + onChangeE.length)

/-- Matcher for rule 4, regex `{members\.map\(\(member\)\s*=>` with
replacement `{members.map((member: any) =>` (line 38). -/
def tryRule4 (_prev : Option Char) (s : List Char) : Option (List Char × Nat) :=
  match litStrip pat4a s with
  | none => none
  | some s1 =>
    match litStrip arrowLit (spaceStrip s1) with
    | none => none
    | some _ =>
      some (rule4Rep, pat4a.length + spaceCount s1 + arrowLit.length)

/-- The scanning loop of `re.sub`: walk the string left to right; at each
position (outside an already matched region) try the matcher; on a match
emit the replacement and skip the rest of the matched region, otherwise
copy the character.  `skip` counts characters of the current match still
to be passed over; `prev` is the previous character of the original
string (for the `\b` assertion).  Matches are non-overlapping and
leftmost, exactly as in Python `re.sub`. -/
def subGo (tryAt : Option Char → List Char → Option (List Char × Nat)) :
    Nat → Option Char → List Char → List Char
  | _, _, [] => []
  | 0, prev, c :: cs =>
    match tryAt prev (c :: cs) with
    | some (rep, n) => rep ++ subGo tryAt (n - 1) (some c) cs
    | none => c :: subGo tryAt 0 (some c) cs
  | k + 1, _, c :: cs => subGo tryAt k (some c) cs

/-- `re.sub` for rule 1. -/
def sub1 (s : List Char) : List Char := subGo tryRule1 0 none s

/-- `re.sub` for rule 2. -/
def sub2 (s : List Char) : List Char := subGo tryRule2 0 none s

/-- `re.sub` for rule 3. -/
def sub3 (s : List Char) : List Char := subGo tryRule3 0 none s

/-- `re.sub` for rule 4. -/
def sub4 (s : List Char) : List Char := subGo tryRule4 0 none s

/-- The content transformation of `fix_type_annotations` (lines 17-38):
the four substitutions applied in order, each to the output of the
previous one. -/
def fixContent (s : List Char) : List Char :=
  sub4 (sub3 (sub2 (sub1 s)))

/-! ## Driver and file-system model

The script's observable effects: a map from paths to file contents, the
list of printed lines, and a log of write events (one entry per `f.write`
call, recording path and written text).  A write-open failure (missing
file, permission) aborts before any modification; the exception
propagates, so `fixFile` returns `none` and the caller stops. -/

structure RunState where
  fs : String → Option (List Char)
  out : List String
  writes : List (String × List Char)

/-- `pathlib.Path.name`: the final path component, after the last path
separator. -/
def baseName (p : String) : String :=
  String.mk ((p.toList.reverse.takeWhile (fun c => !(c == '/') && !(c == '\\'))).reverse)

/-- The confirmation line printed at line 43 of the script. -/
def confirmLine (p : String) : String :=
  "✅ Fixed type annotations in " ++ baseName p

/-- `fix_type_annotations` (lines 15-43): read the whole file (fails when
the path is unreadable), apply the four substitutions, open for writing
(fails when the path is not writable), write the result back
unconditionally, and print the confirmation line.  There is no
changed-content check in the source: the write happens on every
successful run. -/
def fixFile (writable : String → Bool) (st : RunState) (p : String) : Option RunState :=
  match st.fs p with
  | none => none
  | some content =>
    match writable p with
    | false => none
    | true =>
      some { fs := fun q => if q = p then some (fixContent content) else st.fs q,
             out := st.out ++ [confirmLine p],
             writes := st.writes ++ [(p, fixContent content)] }

/-- The driver loop of `main` (lines 45-56): process the paths in order;
an unhandled failure aborts the remaining paths, keeping the state
reached so far (no rollback).  The boolean records whether the run
completed. -/
def processFiles (writable : String → Bool) : RunState → List String → RunState × Bool
  | st, [] => (st, true)
  | st, p :: ps =>
    match fixFile writable st p with
    | none => (st, false)
    | some st2 => processFiles writable st2 ps

def rootDir : String := "C:\\AI-BOS\\AFENDA-FINAL"

def appDir : String := rootDir ++ "/app/(app)/tenancy"

def target1 : String := appDir ++ "/organizations/[id]/settings/page.tsx"

def target2 : String := appDir ++ "/organizations/[id]/members/page.tsx"

def target3 : String := appDir ++ "/teams/[id]/settings/page.tsx"

def target4 : String := appDir ++ "/design-system/page.tsx"

/-- The four hardcoded target paths of `main`, in processing order
(path joining written with `/`). -/
def targets : List String := [target1, target2, target3, target4]

def finalMsg : String := "\n🎉 All type annotations fixed!"

/-- `main`: run the patcher over the four targets, then print the final
message (only reached when every file succeeded). -/
def mainRun (writable : String → Bool) (st : RunState) : RunState × Bool :=
  match processFiles writable st targets with
  | (st2, true) => ({ st2 with out := st2.out ++ [finalMsg] }, true)
  | (st2, false) => (st2, false)

/-! ## Generic facts about the scanning loop -/

/-- The character preceding the continuation after scanning `l`: the last
character of `l`, or `prev` when `l` is empty. -/
def lastP (prev : Option Char) : List Char → Option Char
  | [] => prev
  | c :: l => lastP (some c) l

theorem lastP_nil (prev : Option Char) : lastP prev [] = prev := rfl

theorem lastP_cons (prev : Option Char) (c : Char) (l : List Char) :
    lastP prev (c :: l) = lastP (some c) l := rfl

theorem lastP_append (prev : Option Char) (a b : List Char) :
    lastP prev (a ++ b) = lastP (lastP prev a) b := by
  induction a generalizing prev with
  | nil => rfl
  | cons c cs ih => simpa [lastP] using ih (some c)

/-- The scanner finds no match at any position of `s` (with `prev` the
character before `s`): the regex has no occurrence in `s`. -/
def noHit (tryAt : Option Char → List Char → Option (List Char × Nat)) :
    Option Char → List Char → Bool
  | _, [] => true
  | prev, c :: cs => (tryAt prev (c :: cs)).isNone && noHit tryAt (some c) cs

/-- The scanner finds no match starting at any position inside the prefix
`pre` of `pre ++ rest` (a match starting in `pre` may look into `rest`). -/
def noHitOn (tryAt : Option Char → List Char → Option (List Char × Nat)) :
    Option Char → List Char → List Char → Bool
  | _, [], _ => true
  | prev, c :: cs, rest => (tryAt prev (c :: cs ++ rest)).isNone && noHitOn tryAt (some c) cs rest

theorem subGo_of_noHit (tryAt : Option Char → List Char → Option (List Char × Nat)) :
    ∀ (s : List Char) (prev : Option Char), noHit tryAt prev s = true →
      subGo tryAt 0 prev s = s := by
  intro s
  induction s with
  | nil => intro prev _; rfl
  | cons c cs ih =>
    intro prev h
    simp only [noHit, Bool.and_eq_true, Option.isNone_iff_eq_none] at h
    simp only [subGo, h.1]
    exact congrArg (c :: ·) (ih (some c) h.2)

theorem subGo_append_of_noHitOn (tryAt : Option Char → List Char → Option (List Char × Nat)) :
    ∀ (pre : List Char) (prev : Option Char) (rest : List Char),
      noHitOn tryAt prev pre rest = true →
      subGo tryAt 0 prev (pre ++ rest) = pre ++ subGo tryAt 0 (lastP prev pre) rest := by
  intro pre
  induction pre with
  | nil => intro prev rest _; rfl
  | cons c cs ih =>
    intro prev rest h
    simp only [noHitOn, Bool.and_eq_true, Option.isNone_iff_eq_none] at h
    have h1 : tryAt prev (c :: (cs ++ rest)) = none := h.1
    simp only [List.cons_append, subGo, List.append_eq, h1, lastP_cons]
    exact congrArg (c :: ·) (ih (some c) rest h.2)

theorem subGo_skip (tryAt : Option Char → List Char → Option (List Char × Nat)) :
    ∀ (k : Nat) (l : List Char) (prev : Option Char),
      subGo tryAt k prev l = subGo tryAt 0 (lastP prev (l.take k)) (l.drop k) := by
  intro k
  induction k with
  | zero => intro l prev; rfl
  | succ k ih =>
    intro l prev
    cases l with
    | nil => simp [subGo]
    | cons c cs =>
      simp only [subGo, List.take_succ_cons, List.drop_succ_cons, lastP_cons]
      exact ih cs (some c)

theorem subGo_match (tryAt : Option Char → List Char → Option (List Char × Nat))
    (prev : Option Char) (s : List Char) (rep : List Char) (n : Nat)
    (hs : s ≠ []) (h : tryAt prev s = some (rep, n)) (hn : 1 ≤ n) :
    subGo tryAt 0 prev s = rep ++ subGo tryAt 0 (lastP prev (s.take n)) (s.drop n) := by
  cases s with
  | nil => exact absurd rfl hs
  | cons c cs =>
    obtain ⟨m, rfl⟩ : ∃ m, n = m + 1 := ⟨n - 1, (Nat.succ_pred_eq_of_pos hn).symm⟩
    simp only [subGo, h, Nat.add_sub_cancel, List.take_succ_cons, List.drop_succ_cons,
      lastP_cons]
    exact congrArg (rep ++ ·) (subGo_skip tryAt m cs (some c))

/-- The main decomposition: a clean prefix, then a match covering exactly
`mid`, then the continuation. -/
theorem subGo_replace_at (tryAt : Option Char → List Char → Option (List Char × Nat))
    (prev : Option Char) (pre mid rest rep : List Char)
    (hpre : noHitOn tryAt prev pre (mid ++ rest) = true)
    (hmid : tryAt (lastP prev pre) (mid ++ rest) = some (rep, mid.length))
    (hlen : 1 ≤ mid.length) :
    subGo tryAt 0 prev (pre ++ (mid ++ rest)) =
      pre ++ rep ++ subGo tryAt 0 (lastP (lastP prev pre) mid) rest := by
  have hne : mid ++ rest ≠ [] := by
    cases mid with
    | nil => simp at hlen
    | cons c cs => simp
  rw [subGo_append_of_noHitOn tryAt pre prev (mid ++ rest) hpre,
    subGo_match tryAt (lastP prev pre) (mid ++ rest) rep mid.length hne hmid hlen,
    List.take_left, List.drop_left, List.append_assoc]

/-! ## Facts about the individual matchers -/

theorem litStrip_exact (pat rest : List Char) : litStrip pat (pat ++ rest) = some rest := by
  simp [litStrip, List.isPrefixOf_iff_prefix, List.prefix_append, List.drop_left]

theorem litStrip_none (pat s : List Char) (h : pat.isPrefixOf s = false) :
    litStrip pat s = none := by
  simp [litStrip, h]

theorem spaceStrip_append (ws s : List Char) (hws : ∀ x ∈ ws, isSpaceChar x = true)
    (hs : spaceStrip s = s) : spaceStrip (ws ++ s) = s := by
  rw [spaceStrip, List.dropWhile_append_of_pos hws]
  exact hs

theorem spaceCount_append (ws s : List Char) (hws : ∀ x ∈ ws, isSpaceChar x = true)
    (hs : spaceCount s = 0) : spaceCount (ws ++ s) = ws.length := by
  rw [spaceCount, List.takeWhile_append_of_pos hws, List.length_append]
  rw [spaceCount] at hs
  omega

theorem isSpaceChar_eq_false_of_isAlphanum (c : Char) (h : c.isAlphanum = true) :
    isSpaceChar c = false := by
  cases hs : isSpaceChar c with
  | false => rfl
  | true =>
    exfalso
    simp only [isSpaceChar, Bool.or_eq_true, decide_eq_true_eq] at hs
    rcases hs with ((((h1 | h1) | h1) | h1) | h1) | h1 <;> subst h1 <;> exact absurd h (by decide)

/-- A successful rule-1 match starts with the literal `onError:`. -/
theorem tryRule1_pat (prev : Option Char) (s : List Char) (r : List Char × Nat)
    (h : tryRule1 prev s = some r) : pat1a.isPrefixOf s = true := by
  unfold tryRule1 at h
  cases hb : boundaryOk prev with
  | false => rw [hb] at h; exact Option.noConfusion h
  | true =>
    rw [hb] at h
    cases hp : pat1a.isPrefixOf s with
    | true => rfl
    | false => rw [litStrip_none pat1a s hp] at h; exact Option.noConfusion h

/-- A successful rule-2 match starts with the literal `onChange={(e)`. -/
theorem tryRule2_pat (prev : Option Char) (s : List Char) (r : List Char × Nat)
    (h : tryRule2 prev s = some r) : pat2a.isPrefixOf s = true := by
  unfold tryRule2 at h
  cases hp : pat2a.isPrefixOf s with
  | true => rfl
  | false => rw [litStrip_none pat2a s hp] at h; exact Option.noConfusion h

/-- A successful rule-3 match starts with the literal `<Textarea`. -/
theorem tryRule3_pat (prev : Option Char) (s : List Char) (r : List Char × Nat)
    (h : tryRule3 prev s = some r) : textareaTag.isPrefixOf s = true := by
  unfold tryRule3 at h
  cases hp : textareaTag.isPrefixOf s with
  | true => rfl
  | false => rw [litStrip_none textareaTag s hp] at h; exact Option.noConfusion h

/-- A successful rule-4 match starts with the literal `{members.map((member)`. -/
theorem tryRule4_pat (prev : Option Char) (s : List Char) (r : List Char × Nat)
    (h : tryRule4 prev s = some r) : pat4a.isPrefixOf s = true := by
  unfold tryRule4 at h
  cases hp : pat4a.isPrefixOf s with
  | true => rfl
  | false => rw [litStrip_none pat4a s hp] at h; exact Option.noConfusion h

/-- If the matcher can only succeed where `pat` occurs, and `pat` occurs at
no position of `s`, the scanner finds no match in `s`. -/
theorem noHit_of_no_start
    (tryAt : Option Char → List Char → Option (List Char × Nat)) (pat : List Char)
    (hneed : ∀ prev s r, tryAt prev s = some r → pat.isPrefixOf s = true) :
    ∀ (s : List Char) (prev : Option Char),
      (∀ j, pat.isPrefixOf (s.drop j) = false) → noHit tryAt prev s = true := by
  intro s
  induction s with
  | nil => intro prev _; rfl
  | cons c cs ih =>
    intro prev hno
    have h0 : tryAt prev (c :: cs) = none := by
      cases h : tryAt prev (c :: cs) with
      | none => rfl
      | some r =>
        exfalso
        have hp := hneed prev (c :: cs) r h
        have h1 := hno 0
        rw [List.drop_zero] at h1
        rw [h1] at hp
        exact Bool.noConfusion hp
    simp only [noHit, h0, Option.isNone_none, Bool.true_and]
    exact ih (some c) (fun j => hno (j + 1))

/-- Same, for matches starting inside the prefix `pre` of `pre ++ rest`. -/
theorem noHitOn_of_no_start
    (tryAt : Option Char → List Char → Option (List Char × Nat)) (pat : List Char)
    (hneed : ∀ prev s r, tryAt prev s = some r → pat.isPrefixOf s = true) :
    ∀ (pre : List Char) (prev : Option Char) (rest : List Char),
      (∀ j, j < pre.length → pat.isPrefixOf ((pre ++ rest).drop j) = false) →
      noHitOn tryAt prev pre rest = true := by
  intro pre
  induction pre with
  | nil => intro prev rest _; rfl
  | cons c cs ih =>
    intro prev rest hno
    have h0 : tryAt prev (c :: (cs ++ rest)) = none := by
      cases h : tryAt prev (c :: (cs ++ rest)) with
      | none => rfl
      | some r =>
        have hp := hneed prev (c :: (cs ++ rest)) r h
        have := hno 0 (by simp)
        rw [List.cons_append, List.drop_zero] at this
        rw [this] at hp
        exact Bool.noConfusion hp
    have h1 : (tryAt prev (c :: (cs ++ rest))).isNone = true := by rw [h0]; rfl
    simp only [noHitOn, Bool.and_eq_true]
    refine ⟨h1, ih (some c) rest (fun j hj => ?_)⟩
    have := hno (j + 1) (by simpa using Nat.succ_lt_succ hj)
    simpa using this

theorem findGreedy_eq_some (t : List Char) (k0 : Nat) :
    ∀ m, k0 ≤ m → onChangeE.isPrefixOf (t.drop k0) = true →
      (∀ j, k0 < j → j ≤ m → onChangeE.isPrefixOf (t.drop j) = false) →
      findGreedy t m = some k0 := by
  intro m
  induction m with
  | zero =>
    intro hk hp _
    have : k0 = 0 := Nat.le_zero.mp hk
    subst this
    simp only [findGreedy]
    rw [List.drop_zero] at hp
    simp [hp]
  | succ m ih =>
    intro hk hp hno
    by_cases hEq : k0 = m + 1
    · subst hEq
      simp [findGreedy, hp]
    · have hk2 : k0 ≤ m := Nat.lt_succ_iff.mp (Nat.lt_of_le_of_ne hk hEq)
      have hf : onChangeE.isPrefixOf (t.drop (m + 1)) = false :=
        hno (m + 1) (Nat.lt_succ_of_le hk2) (Nat.le_refl _)
      simp only [findGreedy, hf]
      simp only [Bool.false_eq_true, if_false]
      exact ih hk2 hp (fun j hj1 hj2 => hno j hj1 (Nat.le_succ_of_le hj2))

theorem noHit_append (tryAt : Option Char → List Char → Option (List Char × Nat)) :
    ∀ (a : List Char) (prev : Option Char) (b : List Char),
      noHitOn tryAt prev a b = true → noHit tryAt (lastP prev a) b = true →
      noHit tryAt prev (a ++ b) = true := by
  intro a
  induction a with
  | nil => intro prev b _ h2; exact h2
  | cons c cs ih =>
    intro prev b h1 h2
    simp only [noHitOn, Bool.and_eq_true] at h1
    have h0 : (tryAt prev (c :: (cs ++ b))).isNone = true := h1.1
    simp only [List.cons_append, noHit, Bool.and_eq_true]
    exact ⟨h0, ih (some c) b h1.2 h2⟩

theorem noHitOn_append (tryAt : Option Char → List Char → Option (List Char × Nat)) :
    ∀ (a : List Char) (prev : Option Char) (b rest : List Char),
      noHitOn tryAt prev a (b ++ rest) = true → noHitOn tryAt (lastP prev a) b rest = true →
      noHitOn tryAt prev (a ++ b) rest = true := by
  intro a
  induction a with
  | nil => intro prev b rest _ h2; exact h2
  | cons c cs ih =>
    intro prev b rest h1 h2
    simp only [noHitOn, Bool.and_eq_true] at h1 ⊢
    refine ⟨?_, ih (some c) b rest h1.2 h2⟩
    have h0 := h1.1
    simp only [List.append_eq, List.cons_append, List.append_assoc] at h0 ⊢
    exact h0

/-- An everywhere-no-occurrence fact follows from checking the positions
up to the length of the text: past the end the dropped text is empty and
a nonempty pattern is no prefix of it. -/
theorem no_start_all_of_bounded (pat s : List Char)
    (hne : pat.isPrefixOf ([] : List Char) = false)
    (h : ∀ j, j ≤ s.length → pat.isPrefixOf (s.drop j) = false) :
    ∀ j, pat.isPrefixOf (s.drop j) = false := by
  intro j
  by_cases hle : j ≤ s.length
  · exact h j hle
  · rw [List.drop_eq_nil_of_le (by omega)]
    exact hne

/-- One unfolding step of `noHitOn`. -/
theorem noHitOn_cons_intro (tryAt : Option Char → List Char → Option (List Char × Nat))
    (prev : Option Char) (c : Char) (cs rest : List Char)
    (h0 : tryAt prev (c :: (cs ++ rest)) = none)
    (h1 : noHitOn tryAt (some c) cs rest = true) :
    noHitOn tryAt prev (c :: cs) rest = true := by
  have h0b : (tryAt prev (c :: (cs ++ rest))).isNone = true := by rw [h0]; rfl
  simp only [noHitOn, Bool.and_eq_true]
  exact ⟨h0b, h1⟩

theorem findGreedy_eq_none (t : List Char) :
    ∀ m, (∀ j, j ≤ m → onChangeE.isPrefixOf (t.drop j) = false) →
      findGreedy t m = none := by
  intro m
  induction m with
  | zero =>
    intro hno
    have := hno 0 (Nat.le_refl _)
    rw [List.drop_zero] at this
    simp [findGreedy, this]
  | succ m ih =>
    intro hno
    have hf := hno (m + 1) (Nat.le_refl _)
    simp only [findGreedy, hf]
    simp only [Bool.false_eq_true, if_false]
    exact ih (fun j hj => hno j (Nat.le_succ_of_le hj))

/-! ## The matchers on a decomposed occurrence of their pattern -/

/-- Rule 1 matches `onError:` + any whitespace + `(error)` + any whitespace
+ `=>` (when the `\b` assertion holds), and always yields the one canonical
replacement `onError: (error: Error) =>`. -/
theorem tryRule1_at (prev : Option Char) (ws1 ws2 rest : List Char)
    (hb : boundaryOk prev = true)
    (h1 : ∀ c ∈ ws1, isSpaceChar c = true) (h2 : ∀ c ∈ ws2, isSpaceChar c = true) :
    tryRule1 prev (pat1a ++ (ws1 ++ (pat1b ++ (ws2 ++ (arrowLit ++ rest))))) =
      some (rule1Rep, 17 + (ws1.length + ws2.length)) := by
  have e2 : spaceStrip (ws1 ++ (pat1b ++ (ws2 ++ (arrowLit ++ rest)))) =
      pat1b ++ (ws2 ++ (arrowLit ++ rest)) := spaceStrip_append _ _ h1 rfl
  have e2c : spaceCount (ws1 ++ (pat1b ++ (ws2 ++ (arrowLit ++ rest)))) = ws1.length :=
    spaceCount_append _ _ h1 rfl
  have e4 : spaceStrip (ws2 ++ (arrowLit ++ rest)) = arrowLit ++ rest :=
    spaceStrip_append _ _ h2 rfl
  have e4c : spaceCount (ws2 ++ (arrowLit ++ rest)) = ws2.length :=
    spaceCount_append _ _ h2 rfl
  have l1 : pat1a.length = 8 := rfl
  have l2 : pat1b.length = 7 := rfl
  have l3 : arrowLit.length = 2 := rfl
  simp only [tryRule1, hb, litStrip_exact, e2, e2c, e4, e4c, l1, l2, l3,
    Option.some.injEq, Prod.mk.injEq]
  exact ⟨trivial, by omega⟩

/-- Rule 2 on an occurrence whose handler body calls `setNewMemberUserId`. -/
theorem tryRule2_at_set (prev : Option Char) (ws1 ws2 rest : List Char)
    (h1 : ∀ c ∈ ws1, isSpaceChar c = true) (h2 : ∀ c ∈ ws2, isSpaceChar c = true) :
    tryRule2 prev (pat2a ++ (ws1 ++ (arrowLit ++ (ws2 ++ (nameSet ++ rest))))) =
      some (rule2RepPre ++ nameSet, 34 + (ws1.length + ws2.length)) := by
  have e2 : spaceStrip (ws1 ++ (arrowLit ++ (ws2 ++ (nameSet ++ rest)))) =
      arrowLit ++ (ws2 ++ (nameSet ++ rest)) := spaceStrip_append _ _ h1 rfl
  have e2c : spaceCount (ws1 ++ (arrowLit ++ (ws2 ++ (nameSet ++ rest)))) = ws1.length :=
    spaceCount_append _ _ h1 rfl
  have e4 : spaceStrip (ws2 ++ (nameSet ++ rest)) = nameSet ++ rest :=
    spaceStrip_append _ _ h2 rfl
  have e4c : spaceCount (ws2 ++ (nameSet ++ rest)) = ws2.length :=
    spaceCount_append _ _ h2 rfl
  have l1 : pat2a.length = 13 := rfl
  have l2 : arrowLit.length = 2 := rfl
  have l3 : nameSet.length = 19 := rfl
  simp only [tryRule2, litStrip_exact, e2, e2c, e4, e4c, l1, l2, l3,
    Option.some.injEq, Prod.mk.injEq]
  exact ⟨trivial, by omega⟩

/-- Rule 2 on an occurrence whose handler body calls `handleChange`
(the first alternation branch `setNewMemberUserId` fails on it). -/
theorem tryRule2_at_hc (prev : Option Char) (ws1 ws2 rest : List Char)
    (h1 : ∀ c ∈ ws1, isSpaceChar c = true) (h2 : ∀ c ∈ ws2, isSpaceChar c = true) :
    tryRule2 prev (pat2a ++ (ws1 ++ (arrowLit ++ (ws2 ++ (nameHC ++ rest))))) =
      some (rule2RepPre ++ nameHC, 28 + (ws1.length + ws2.length)) := by
  have e2 : spaceStrip (ws1 ++ (arrowLit ++ (ws2 ++ (nameHC ++ rest)))) =
      arrowLit ++ (ws2 ++ (nameHC ++ rest)) := spaceStrip_append _ _ h1 rfl
  have e2c : spaceCount (ws1 ++ (arrowLit ++ (ws2 ++ (nameHC ++ rest)))) = ws1.length :=
    spaceCount_append _ _ h1 rfl
  have e4 : spaceStrip (ws2 ++ (nameHC ++ rest)) = nameHC ++ rest :=
    spaceStrip_append _ _ h2 rfl
  have e4c : spaceCount (ws2 ++ (nameHC ++ rest)) = ws2.length :=
    spaceCount_append _ _ h2 rfl
  have efail : litStrip nameSet (nameHC ++ rest) = none := rfl
  have l1 : pat2a.length = 13 := rfl
  have l2 : arrowLit.length = 2 := rfl
  have l3 : nameHC.length = 13 := rfl
  simp only [tryRule2, litStrip_exact, e2, e2c, e4, e4c, efail, l1, l2, l3,
    Option.some.injEq, Prod.mk.injEq]
  exact ⟨trivial, by omega⟩

/-- Rule 4 matches `{members.map((member)` + any whitespace + `=>`. -/
theorem tryRule4_at (prev : Option Char) (ws rest : List Char)
    (h1 : ∀ c ∈ ws, isSpaceChar c = true) :
    tryRule4 prev (pat4a ++ (ws ++ (arrowLit ++ rest))) =
      some (rule4Rep, 23 + ws.length) := by
  have e2 : spaceStrip (ws ++ (arrowLit ++ rest)) = arrowLit ++ rest :=
    spaceStrip_append _ _ h1 rfl
  have e2c : spaceCount (ws ++ (arrowLit ++ rest)) = ws.length :=
    spaceCount_append _ _ h1 rfl
  have l1 : pat4a.length = 21 := rfl
  have l2 : arrowLit.length = 2 := rfl
  simp only [tryRule4, litStrip_exact, e2, e2c, l1, l2,
    Option.some.injEq, Prod.mk.injEq]
  exact ⟨trivial, by omega⟩

/-- Rule 3 on a tag whose last `onChange={(e)` inside the `>`-free window
sits right after `mid`: the greedy `[^>]*` consumes exactly `mid`. -/
theorem tryRule3_at (prev : Option Char) (mid post : List Char)
    (hmid : ∀ c ∈ mid, (c == '>') = false)
    (hno : ∀ j, mid.length < j →
      onChangeE.isPrefixOf ((mid ++ (onChangeE ++ post)).drop j) = false) :
    tryRule3 prev (textareaTag ++ (mid ++ (onChangeE ++ post))) =
      some (textareaTag ++ mid ++ onChangeOpen ++ rule3Ann, 22 + mid.length) := by
  have hk0 : onChangeE.isPrefixOf ((mid ++ (onChangeE ++ post)).drop mid.length) = true := by
    rw [List.drop_left]
    exact List.isPrefixOf_iff_prefix.mpr (List.prefix_append _ _)
  have hm : mid.length ≤
      ((mid ++ (onChangeE ++ post)).takeWhile (fun c => !(c == '>'))).length := by
    rw [List.takeWhile_append_of_pos (fun c hc => by rw [hmid c hc]; rfl), List.length_append]
    exact Nat.le_add_right _ _
  have hfg : findGreedy (mid ++ (onChangeE ++ post))
      (((mid ++ (onChangeE ++ post)).takeWhile (fun c => !(c == '>'))).length) =
      some mid.length :=
    findGreedy_eq_some _ mid.length _ hm hk0 (fun j hj _ => hno j hj)
  have ltake : (mid ++ (onChangeE ++ post)).take mid.length = mid := List.take_left _ _
  have l1 : textareaTag.length = 9 := rfl
  have l2 : onChangeE.length = 13 := rfl
  simp only [tryRule3, litStrip_exact, hfg, ltake, l1, l2,
    Option.some.injEq, Prod.mk.injEq]
  exact ⟨trivial, by omega⟩

/-- Rule 3 finds no match on a tag that closes (first `>`) before any
`onChange={(e)`: the greedy `[^>]*` cannot cross the `>`. -/
theorem tryRule3_blocked (prev : Option Char) (mid rest : List Char)
    (hmid : ∀ c ∈ mid, (c == '>') = false)
    (hno : ∀ j, j ≤ mid.length →
      onChangeE.isPrefixOf ((mid ++ ('>' :: rest)).drop j) = false) :
    tryRule3 prev (textareaTag ++ (mid ++ ('>' :: rest))) = none := by
  have hmexact : ((mid ++ ('>' :: rest)).takeWhile (fun c => !(c == '>'))).length
      = mid.length := by
    rw [List.takeWhile_append_of_pos (fun c hc => by rw [hmid c hc]; rfl)]
    simp [List.takeWhile_cons]
  have hfg : findGreedy (mid ++ ('>' :: rest))
      (((mid ++ ('>' :: rest)).takeWhile (fun c => !(c == '>'))).length) = none := by
    rw [hmexact]
    exact findGreedy_eq_none _ _ hno
  simp only [tryRule3, litStrip_exact, hfg]

/-! ## Canonical occurrences used by the testable properties -/

/-- `onChange={(e) => setNewMemberUserId(` -/
def occSet : List Char := "onChange=\x7b(e) => setNewMemberUserId(".toList

/-- `onChange={(e) => handleChange(` -/
def occHC : List Char := "onChange=\x7b(e) => handleChange(".toList

/-- `{members.map((member) =>` -/
def occ4c : List Char := "\x7bmembers.map((member) =>".toList

/-- `onChange={(e) => ` — the handler shape up to the called function's name. -/
def occPre : List Char := "onChange=\x7b(e) => ".toList

/-- `occPre` without its first character. -/
def occPreTail : List Char := "nChange=\x7b(e) => ".toList

/-- `.map((member) =>` — a map callback without the `{members` context. -/
def occMap : List Char := ".map((member) =>".toList

/-- Rule 2 fails when the text after `onChange={(e)\s*=>\s*` starts with
neither `setNewMemberUserId(` nor `handleChange(`: the alternation has no
branch left. -/
theorem tryRule2_at_other (prev : Option Char) (ws1 ws2 tail : List Char)
    (h1 : ∀ c ∈ ws1, isSpaceChar c = true) (h2 : ∀ c ∈ ws2, isSpaceChar c = true)
    (hsp : spaceStrip tail = tail)
    (hset : litStrip nameSet tail = none) (hhc : litStrip nameHC tail = none) :
    tryRule2 prev (pat2a ++ (ws1 ++ (arrowLit ++ (ws2 ++ tail)))) = none := by
  have e2 : spaceStrip (ws1 ++ (arrowLit ++ (ws2 ++ tail))) = arrowLit ++ (ws2 ++ tail) :=
    spaceStrip_append _ _ h1 rfl
  have e4 : spaceStrip (ws2 ++ tail) = tail := spaceStrip_append _ _ h2 hsp
  simp only [tryRule2, litStrip_exact, e2, e4, hset, hhc]

/-- An alphanumeric identifier (followed by `(`) never starts an
occurrence of `onChange={(e)`: that pattern contains `=`, which is
neither alphanumeric nor `(`. -/
theorem pat2a_no_start_alnum (l : List Char) (hl : ∀ c ∈ l, c.isAlphanum = true) :
    pat2a.isPrefixOf (l ++ ['(']) = false := by
  cases hp : pat2a.isPrefixOf (l ++ ['(']) with
  | false => rfl
  | true =>
    exfalso
    have hpre : pat2a <+: (l ++ ['(']) := List.isPrefixOf_iff_prefix.mp hp
    have hmem : '=' ∈ l ++ ['('] := hpre.subset (by decide)
    rcases List.mem_append.mp hmem with hm | hm
    · exact absurd (hl '=' hm) (by decide)
    · rw [List.mem_singleton] at hm
      exact absurd hm (by decide)

theorem tryRule2_none_alnum (prev : Option Char) (l : List Char)
    (hl : ∀ c ∈ l, c.isAlphanum = true) :
    tryRule2 prev (l ++ ['(']) = none := by
  cases h : tryRule2 prev (l ++ ['(']) with
  | none => rfl
  | some r =>
    exfalso
    have hp := tryRule2_pat prev _ r h
    rw [pat2a_no_start_alnum l hl] at hp
    exact Bool.noConfusion hp

/-- Rule 2 finds no match anywhere inside an alphanumeric identifier
followed by `(`. -/
theorem noHit2_alnum (l : List Char) (hl : ∀ c ∈ l, c.isAlphanum = true) :
    ∀ prev, noHit tryRule2 prev (l ++ ['(']) = true := by
  induction l with
  | nil => intro prev; rfl
  | cons c cs ih =>
    intro prev
    have h0 : tryRule2 prev (c :: (cs ++ ['('])) = none :=
      tryRule2_none_alnum prev (c :: cs) hl
    have h1 : noHit tryRule2 (some c) (cs ++ ['(']) = true :=
      ih (fun x hx => hl x (List.mem_cons_of_mem c hx)) (some c)
    simp only [List.cons_append, noHit, List.append_eq, Bool.and_eq_true]
    refine ⟨?_, h1⟩
    rw [h0]
    rfl

theorem spaceStrip_alnum (l : List Char) (hl : ∀ c ∈ l, c.isAlphanum = true) :
    spaceStrip (l ++ ['(']) = l ++ ['('] := by
  cases l with
  | nil => rfl
  | cons c cs =>
    have hc : isSpaceChar c = false :=
      isSpaceChar_eq_false_of_isAlphanum c (hl c (List.mem_cons_self c cs))
    simp [spaceStrip, List.dropWhile_cons, hc]

/-! ## Facts about the driver -/

/-- A successful run of the patcher on one file: read succeeded, write
succeeded, the new state records the unconditional write, the updated
content and the confirmation line. -/
theorem fixFile_eq (w : String → Bool) (st : RunState) (p : String) (c : List Char)
    (hread : st.fs p = some c) (hw : w p = true) :
    fixFile w st p =
      some { fs := fun q => if q = p then some (fixContent c) else st.fs q,
             out := st.out ++ [confirmLine p],
             writes := st.writes ++ [(p, fixContent c)] } := by
  unfold fixFile
  rw [hread, hw]

/-- If every path of `pre` is processed successfully and the next path
fails, the whole run stops with the state reached after `pre`: the
remaining paths are not processed and nothing is rolled back. -/
theorem processFiles_abort (w : String → Bool) :
    ∀ (pre : List String) (st st1 : RunState) (p : String) (ps : List String),
      processFiles w st pre = (st1, true) → fixFile w st1 p = none →
      processFiles w st (pre ++ p :: ps) = (st1, false) := by
  intro pre
  induction pre with
  | nil =>
    intro st st1 p ps h1 h2
    have hst : st = st1 := congrArg Prod.fst h1
    subst hst
    simp only [List.nil_append, processFiles, h2]
  | cons q qs ih =>
    intro st st1 p ps h1 h2
    simp only [processFiles] at h1
    cases hq : fixFile w st q with
    | none =>
      rw [hq] at h1
      have h1b : (st, false) = (st1, true) := h1
      have hfalse : false = true := congrArg Prod.snd h1b
      exact Bool.noConfusion hfalse
    | some st2 =>
      rw [hq] at h1
      simp only [List.cons_append, processFiles, hq]
      exact ih st2 st1 p ps h1 h2

/-! ## Concrete states used as witnesses -/

def allWritable : String → Bool := fun _ => true

def plainPath : String := "sample/page.tsx"

def plainContent : List Char := "const x = 1;".toList

def plainState : RunState :=
  { fs := fun q => if q = plainPath then some plainContent else none,
    out := [], writes := [] }

def c3State : RunState :=
  { fs := fun q => if q = target1 then some plainContent else none,
    out := [], writes := [] }

def c8Content : List Char := "onChange=\x7b(e) => handleChange(e)\x7d".toList

def c8State : RunState :=
  { fs := fun q => if q = target1 then some c8Content else none,
    out := [], writes := [] }

def texTwice : List Char := "<Textarea onChange=\x7b(e) onChange=\x7b(e)".toList

def errSample : List Char := "onError:(error)=>".toList

def c4Sample : List Char := "export default function Page() \x7b return null \x7d".toList

def preInput : List Char := "<input ".toList

def postParenX : List Char := "x)\x7d".toList

def postParenE : List Char := "e)\x7d".toList

def otherName : List Char := "otherFn".toList

def c6Sample : List Char := "onChange=\x7b(e) => g(e)\x7d".toList

def preUl : List Char := "<ul>".toList

def postBrace : List Char := " x\x7d".toList

def preItems : List Char := "items".toList

def postMap : List Char := " x)".toList

def c9Mid : List Char := " rows=3".toList

def restX : List Char := "x".toList

def tex1 : List Char := "<Textarea onChange=\x7b(e)".toList

def tex1Out : List Char := "<Textarea onChange=\x7b(e: React.ChangeEvent<HTMLTextareaElement>)".toList

def ann3Lower : List Char := "(e: React.ChangeEvent<HTMLTextareaElement>)".toList

def ann3Std : List Char := "(e: React.ChangeEvent<HTMLTextAreaElement>)".toList

def wsSample : List Char := "onError: \t (error)  =>".toList

def c8Out : List Char :=
  "onChange=\x7b(e: React.ChangeEvent<HTMLInputElement>) => handleChange(e)\x7d".toList

def confirmPage : String := "✅ Fixed type annotations in page.tsx"

/-! ## The claims -/

/-- C1 (counterexample): the Text Patcher performs no changed-content
check: on a file whose content `const x = 1;` is changed by no rule
(`fixContent` returns it unchanged), the run still writes the file (the
write log records one write of the unchanged content), contradicting the
claim that the file is written back only when the resulting text differs
from the original. -/
theorem c1_unconditional_write_cex :
    fixContent plainContent = plainContent ∧
    (fixFile allWritable plainState plainPath).map RunState.writes =
      some [(plainPath, plainContent)] :=
  ⟨rfl, rfl⟩

/-- C1 (amended): whenever reading and writing succeed, the patcher
always writes the file back — the write log grows by exactly the entry
`(p, fixContent c)` — and when no rule changes the content the written
content equals the original content, so the stored state (the path-to-
content map) is unchanged by the operation. -/
theorem c1_write_back_amended (w : String → Bool) (st : RunState) (p : String) (c : List Char)
    (hread : st.fs p = some c) (hw : w p = true) :
    (fixFile w st p).map RunState.writes = some (st.writes ++ [(p, fixContent c)]) ∧
    (fixContent c = c → (fixFile w st p).map RunState.fs = some st.fs) := by
  rw [fixFile_eq w st p c hread hw]
  constructor
  · rfl
  · intro hfix
    have hfun : (fun q => if q = p then some (fixContent c) else st.fs q) = st.fs := by
      funext q
      by_cases hq : q = p
      · subst hq
        rw [if_pos rfl, hfix, hread]
      · rw [if_neg hq]
    show some (fun q => if q = p then some (fixContent c) else st.fs q) = some st.fs
    exact congrArg some hfun

theorem c1_write_back_amended_witness :
    (fixFile allWritable plainState plainPath).map RunState.writes =
      some (plainState.writes ++ [(plainPath, fixContent plainContent)]) ∧
    (fixFile allWritable plainState plainPath).map RunState.fs = some plainState.fs :=
  ⟨(c1_write_back_amended allWritable plainState plainPath plainContent rfl rfl).1,
   (c1_write_back_amended allWritable plainState plainPath plainContent rfl rfl).2 rfl⟩

/-- C2 (counterexample): the full rule sequence is not idempotent.  On
`<Textarea onChange={(e) onChange={(e)` the first pass lets rule 3's
greedy `[^>]*` annotate only the rightmost `(e)`; the `>` characters the
replacement inserts shrink the window on the second pass, which then
annotates the first `(e)` too, so the second pass changes the text
again. -/
theorem c2_idempotence_cex :
    fixContent (fixContent texTwice) ≠ fixContent texTwice := by decide

/-- C2 (amended): applying the full rule sequence twice produces the same
text as applying it once for every input whose first-pass output contains
no remaining occurrence of any of the four patterns (the typical case,
but not guaranteed — see the counterexample). -/
theorem c2_second_pass_noop_amended (s : List Char)
    (h1 : noHit tryRule1 none (fixContent s) = true)
    (h2 : noHit tryRule2 none (fixContent s) = true)
    (h3 : noHit tryRule3 none (fixContent s) = true)
    (h4 : noHit tryRule4 none (fixContent s) = true) :
    fixContent (fixContent s) = fixContent s := by
  have e1 : sub1 (fixContent s) = fixContent s := subGo_of_noHit tryRule1 _ none h1
  have e2 : sub2 (fixContent s) = fixContent s := subGo_of_noHit tryRule2 _ none h2
  have e3 : sub3 (fixContent s) = fixContent s := subGo_of_noHit tryRule3 _ none h3
  have e4 : sub4 (fixContent s) = fixContent s := subGo_of_noHit tryRule4 _ none h4
  calc fixContent (fixContent s)
      = sub4 (sub3 (sub2 (sub1 (fixContent s)))) := rfl
    _ = fixContent s := by rw [e1, e2, e3, e4]

theorem c2_second_pass_noop_amended_witness :
    fixContent (fixContent errSample) = fixContent errSample :=
  c2_second_pass_noop_amended errSample (by decide) (by decide) (by decide) (by decide)

/-- C3: if processing one of the four target files fails (here: the read
or the write open fails), the run aborts at that point: `main` stops with
exactly the state reached after the earlier files (their modifications
kept, no rollback), the failing and the remaining files untouched, and
the final message not printed. -/
theorem c3_failure_aborts_run (w : String → Bool) (pre : List String) (st st1 : RunState)
    (p : String) (ps : List String)
    (hsplit : targets = pre ++ p :: ps)
    (h1 : processFiles w st pre = (st1, true)) (h2 : fixFile w st1 p = none) :
    mainRun w st = (st1, false) := by
  unfold mainRun
  rw [hsplit, processFiles_abort w pre st st1 p ps h1 h2]

theorem c3_failure_aborts_run_witness :
    mainRun allWritable c3State = ((processFiles allWritable c3State [target1]).1, false) :=
  c3_failure_aborts_run allWritable [target1] c3State
    ((processFiles allWritable c3State [target1]).1) target2 [target3, target4]
    rfl rfl rfl

/-- C4: each of the four rules, applied to a text in which its scanner
finds no occurrence of its pattern (`noHit` — no position of the text
starts a match), returns the text unchanged. -/
theorem c4_rules_noop_without_occurrence (s : List Char) :
    (noHit tryRule1 none s = true → sub1 s = s) ∧
    (noHit tryRule2 none s = true → sub2 s = s) ∧
    (noHit tryRule3 none s = true → sub3 s = s) ∧
    (noHit tryRule4 none s = true → sub4 s = s) :=
  ⟨fun h => subGo_of_noHit tryRule1 s none h,
   fun h => subGo_of_noHit tryRule2 s none h,
   fun h => subGo_of_noHit tryRule3 s none h,
   fun h => subGo_of_noHit tryRule4 s none h⟩

theorem c4_rules_noop_without_occurrence_witness :
    sub1 c4Sample = c4Sample ∧ sub2 c4Sample = c4Sample ∧
    sub3 c4Sample = c4Sample ∧ sub4 c4Sample = c4Sample :=
  ⟨(c4_rules_noop_without_occurrence c4Sample).1 (by decide),
   (c4_rules_noop_without_occurrence c4Sample).2.1 (by decide),
   (c4_rules_noop_without_occurrence c4Sample).2.2.1 (by decide),
   (c4_rules_noop_without_occurrence c4Sample).2.2.2 (by decide)⟩

/-- C8: end-to-end, on a file whose entire content is exactly
`onChange={(e) => handleChange(e)}`, the patcher leaves the file with
content exactly `onChange={(e: React.ChangeEvent<HTMLInputElement>) =>
handleChange(e)}` and prints the one confirmation line naming the file's
base name `page.tsx`. -/
theorem c8_end_to_end :
    (fixFile allWritable c8State target1).map (fun st => st.fs target1) = some (some c8Out) ∧
    (fixFile allWritable c8State target1).map RunState.out = some [confirmPage] :=
  ⟨rfl, rfl⟩

/-- C5: rule 2 rewrites an `onChange={(e) => setNewMemberUserId(` (or
`handleChange`) occurrence, substituting the annotated parameter
`(e: React.ChangeEvent<HTMLInputElement>)` for `(e)` in that handler and
continuing after it, provided no match starts in the text before the
occurrence; and an `onChange` handler whose body calls any other
(alphanumeric) function name is left entirely unchanged. -/
theorem c5_rule2_substitution :
    (∀ pre post : List Char, noHitOn tryRule2 none pre (occSet ++ post) = true →
       sub2 (pre ++ (occSet ++ post)) =
         pre ++ (rule2RepPre ++ nameSet) ++ subGo tryRule2 0 (some '(') post) ∧
    (∀ pre post : List Char, noHitOn tryRule2 none pre (occHC ++ post) = true →
       sub2 (pre ++ (occHC ++ post)) =
         pre ++ (rule2RepPre ++ nameHC) ++ subGo tryRule2 0 (some '(') post) ∧
    (∀ name : List Char, (∀ c ∈ name, c.isAlphanum = true) →
       nameSet.isPrefixOf (name ++ ['(']) = false →
       nameHC.isPrefixOf (name ++ ['(']) = false →
       sub2 (occPre ++ (name ++ ['('])) = occPre ++ (name ++ ['('])) := by
  have hsp : ∀ c ∈ ([' '] : List Char), isSpaceChar c = true := by decide
  refine ⟨?_, ?_, ?_⟩
  · intro pre post h
    have hmid : tryRule2 (lastP none pre) (occSet ++ post) =
        some (rule2RepPre ++ nameSet, occSet.length) := by
      have hdec : occSet ++ post =
          pat2a ++ ([' '] ++ (arrowLit ++ ([' '] ++ (nameSet ++ post)))) := rfl
      rw [hdec, tryRule2_at_set (lastP none pre) [' '] [' '] post hsp hsp]
      rfl
    have hres := subGo_replace_at tryRule2 none pre occSet post
      (rule2RepPre ++ nameSet) h hmid (by decide)
    have hlast : lastP (lastP none pre) occSet = some '(' := rfl
    rw [hlast] at hres
    exact hres
  · intro pre post h
    have hmid : tryRule2 (lastP none pre) (occHC ++ post) =
        some (rule2RepPre ++ nameHC, occHC.length) := by
      have hdec : occHC ++ post =
          pat2a ++ ([' '] ++ (arrowLit ++ ([' '] ++ (nameHC ++ post)))) := rfl
      rw [hdec, tryRule2_at_hc (lastP none pre) [' '] [' '] post hsp hsp]
      rfl
    have hres := subGo_replace_at tryRule2 none pre occHC post
      (rule2RepPre ++ nameHC) h hmid (by decide)
    have hlast : lastP (lastP none pre) occHC = some '(' := rfl
    rw [hlast] at hres
    exact hres
  · intro name hname hset hhc
    refine subGo_of_noHit tryRule2 _ none ?_
    refine noHit_append tryRule2 occPre none (name ++ ['(']) ?_ ?_
    · show noHitOn tryRule2 none ('o' :: occPreTail) (name ++ ['(']) = true
      refine noHitOn_cons_intro tryRule2 none 'o' occPreTail (name ++ ['(']) ?_ ?_
      · have hd : ('o' :: (occPreTail ++ (name ++ ['(']))) =
            pat2a ++ ([' '] ++ (arrowLit ++ ([' '] ++ (name ++ ['('])))) := rfl
        rw [hd]
        exact tryRule2_at_other none [' '] [' '] (name ++ ['(']) hsp hsp
          (spaceStrip_alnum name hname) (litStrip_none _ _ hset) (litStrip_none _ _ hhc)
      · refine noHitOn_of_no_start tryRule2 pat2a tryRule2_pat occPreTail (some 'o')
          (name ++ ['(']) ?_
        intro j hj
        have h16 : occPreTail.length = 16 := rfl
        have hj16 : j < 16 := by omega
        interval_cases j <;> rfl
    · exact noHit2_alnum name hname (lastP none occPre)

theorem c5_rule2_substitution_witness :
    sub2 (preInput ++ (occSet ++ postParenX)) =
      preInput ++ (rule2RepPre ++ nameSet) ++ subGo tryRule2 0 (some '(') postParenX ∧
    sub2 (preInput ++ (occHC ++ postParenE)) =
      preInput ++ (rule2RepPre ++ nameHC) ++ subGo tryRule2 0 (some '(') postParenE ∧
    sub2 (occPre ++ (otherName ++ ['('])) = occPre ++ (otherName ++ ['(']) :=
  ⟨c5_rule2_substitution.1 preInput postParenX (by decide),
   c5_rule2_substitution.2.1 preInput postParenE (by decide),
   c5_rule2_substitution.2.2 otherName (by decide) (by decide) (by decide)⟩

/-- C6: rule 3 rewrites a Textarea tag's `onChange={(e)` (the last one in
the tag's `>`-free window, by greediness) so that the `(e)` parameter
carries the text-area change-event annotation, provided no match starts
earlier in the text; and a text in which `<Textarea` occurs at no
position is left entirely unchanged by rule 3 (an `(e)` not preceded by
that component tag is untouched). -/
theorem c6_rule3_substitution :
    (∀ pre mid post : List Char,
       noHitOn tryRule3 none pre ((textareaTag ++ (mid ++ onChangeE)) ++ post) = true →
       (∀ c ∈ mid, (c == '>') = false) →
       (∀ j, j ≤ (mid ++ (onChangeE ++ post)).length → mid.length < j →
         onChangeE.isPrefixOf ((mid ++ (onChangeE ++ post)).drop j) = false) →
       sub3 (pre ++ ((textareaTag ++ (mid ++ onChangeE)) ++ post)) =
         pre ++ (textareaTag ++ mid ++ onChangeOpen ++ rule3Ann) ++
           subGo tryRule3 0 (some ')') post) ∧
    (∀ s : List Char, (∀ j, textareaTag.isPrefixOf (s.drop j) = false) → sub3 s = s) := by
  constructor
  · intro pre mid post h hmid hno
    have hno2 : ∀ j, mid.length < j →
        onChangeE.isPrefixOf ((mid ++ (onChangeE ++ post)).drop j) = false := by
      intro j hj
      by_cases hle : j ≤ (mid ++ (onChangeE ++ post)).length
      · exact hno j hle hj
      · rw [List.drop_eq_nil_of_le (by omega)]
        rfl
    have l1 : textareaTag.length = 9 := rfl
    have l2 : onChangeE.length = 13 := rfl
    have hmatch : tryRule3 (lastP none pre) ((textareaTag ++ (mid ++ onChangeE)) ++ post) =
        some (textareaTag ++ mid ++ onChangeOpen ++ rule3Ann,
          (textareaTag ++ (mid ++ onChangeE)).length) := by
      have hassoc : (textareaTag ++ (mid ++ onChangeE)) ++ post =
          textareaTag ++ (mid ++ (onChangeE ++ post)) := by
        simp [List.append_assoc]
      rw [hassoc, tryRule3_at (lastP none pre) mid post hmid hno2]
      simp only [Option.some.injEq, Prod.mk.injEq]
      refine ⟨trivial, ?_⟩
      simp only [List.length_append, l1, l2]
      omega
    have hlen : 1 ≤ (textareaTag ++ (mid ++ onChangeE)).length := by
      simp only [List.length_append, l1]
      omega
    have hres := subGo_replace_at tryRule3 none pre (textareaTag ++ (mid ++ onChangeE)) post
      (textareaTag ++ mid ++ onChangeOpen ++ rule3Ann) h hmatch hlen
    have hlast : lastP (lastP none pre) (textareaTag ++ (mid ++ onChangeE)) = some ')' := by
      rw [lastP_append, lastP_append]
      rfl
    rw [hlast] at hres
    exact hres
  · intro s hno
    exact subGo_of_noHit tryRule3 s none
      (noHit_of_no_start tryRule3 textareaTag tryRule3_pat s none hno)

theorem c6_rule3_substitution_witness :
    sub3 (([] : List Char) ++ ((textareaTag ++ ([' '] ++ onChangeE)) ++ [])) =
      ([] : List Char) ++ (textareaTag ++ [' '] ++ onChangeOpen ++ rule3Ann) ++
        subGo tryRule3 0 (some ')') [] ∧
    sub3 c6Sample = c6Sample :=
  ⟨c6_rule3_substitution.1 [] [' '] [] rfl (by decide) (by decide),
   c6_rule3_substitution.2 c6Sample
     (no_start_all_of_bounded textareaTag c6Sample rfl (by decide))⟩

/-- C7: rule 4 rewrites `{members.map((member) =>` to
`{members.map((member: any) =>` (provided no match starts earlier in the
text), while a `.map((member) =>` occurrence not preceded by a
`{members.map((member)` pattern start anywhere up to and including its own
position — in particular, not immediately preceded by `{members` — is left
unchanged. -/
theorem c7_rule4_substitution :
    (∀ pre post : List Char, noHitOn tryRule4 none pre (occ4c ++ post) = true →
       sub4 (pre ++ (occ4c ++ post)) =
         pre ++ rule4Rep ++ subGo tryRule4 0 (some '>') post) ∧
    (∀ pre post : List Char,
       (∀ j, j ≤ pre.length → pat4a.isPrefixOf ((pre ++ (occMap ++ post)).drop j) = false) →
       sub4 (pre ++ (occMap ++ post)) = (pre ++ occMap) ++ subGo tryRule4 0 (some '>') post) := by
  constructor
  · intro pre post h
    have hsp : ∀ c ∈ ([' '] : List Char), isSpaceChar c = true := by decide
    have hmid : tryRule4 (lastP none pre) (occ4c ++ post) = some (rule4Rep, occ4c.length) := by
      have hdec : occ4c ++ post = pat4a ++ ([' '] ++ (arrowLit ++ post)) := rfl
      rw [hdec, tryRule4_at (lastP none pre) [' '] post hsp]
      rfl
    have hres := subGo_replace_at tryRule4 none pre occ4c post rule4Rep h hmid (by decide)
    have hlast : lastP (lastP none pre) occ4c = some '>' := rfl
    rw [hlast] at hres
    exact hres
  · intro pre post hno
    have hpre : noHitOn tryRule4 none pre (occMap ++ post) = true := by
      refine noHitOn_of_no_start tryRule4 pat4a tryRule4_pat pre none (occMap ++ post) ?_
      intro j hj
      exact hno j (Nat.le_of_lt hj)
    have hocc : noHitOn tryRule4 (lastP none pre) occMap post = true := by
      refine noHitOn_of_no_start tryRule4 pat4a tryRule4_pat occMap (lastP none pre) post ?_
      intro j hj
      have h16 : occMap.length = 16 := rfl
      have hj16 : j < 16 := by omega
      interval_cases j <;> rfl
    have hall : noHitOn tryRule4 none (pre ++ occMap) post = true :=
      noHitOn_append tryRule4 pre none occMap post hpre hocc
    have hres := subGo_append_of_noHitOn tryRule4 (pre ++ occMap) none post hall
    have hlast : lastP none (pre ++ occMap) = some '>' := by
      rw [lastP_append]
      rfl
    rw [hlast, List.append_assoc] at hres
    exact hres

theorem c7_rule4_substitution_witness :
    sub4 (preUl ++ (occ4c ++ postBrace)) =
      preUl ++ rule4Rep ++ subGo tryRule4 0 (some '>') postBrace ∧
    sub4 (preItems ++ (occMap ++ postMap)) =
      (preItems ++ occMap) ++ subGo tryRule4 0 (some '>') postMap :=
  ⟨c7_rule4_substitution.1 preUl postBrace (by decide),
   c7_rule4_substitution.2 preItems postMap (by decide)⟩

/-- C9: rule 3's match requires the `onChange={` to occur inside the same
`Textarea` opening tag — no `>` may stand between `<Textarea` and
`onChange={`, so a handler after the tag's closing `>` is not matched;
and the inserted annotation is exactly
`(e: React.ChangeEvent<HTMLTextareaElement>)`, with a lowercase `a` in
`Textarea`, which differs from the standard React name
`HTMLTextAreaElement`. -/
theorem c9_rule3_window :
    (∀ (prev : Option Char) (mid rest : List Char),
       (∀ c ∈ mid, (c == '>') = false) →
       (∀ j, j ≤ mid.length → onChangeE.isPrefixOf ((mid ++ ('>' :: rest)).drop j) = false) →
       tryRule3 prev (textareaTag ++ (mid ++ ('>' :: rest))) = none) ∧
    sub3 tex1 = tex1Out ∧
    rule3Ann = ann3Lower ∧
    rule3Ann ≠ ann3Std :=
  ⟨tryRule3_blocked, by decide, rfl, by decide⟩

theorem c9_rule3_window_witness :
    tryRule3 none (textareaTag ++ (c9Mid ++ ('>' :: onChangeE))) = none :=
  c9_rule3_window.1 none c9Mid onChangeE (by decide) (by decide)

/-- C10: rule 1 matches `onError:`, `(error)`, `=>` separated by any
amounts of whitespace (including none), and every match is rewritten to
the single canonical text `onError: (error: Error) =>` with exactly one
space at each separator — so the rule can change surrounding whitespace
in addition to inserting the annotation, as the two concrete runs show. -/
theorem c10_rule1_whitespace :
    (∀ (prev : Option Char) (ws1 ws2 rest : List Char),
       boundaryOk prev = true →
       (∀ c ∈ ws1, isSpaceChar c = true) → (∀ c ∈ ws2, isSpaceChar c = true) →
       tryRule1 prev (pat1a ++ (ws1 ++ (pat1b ++ (ws2 ++ (arrowLit ++ rest))))) =
         some (rule1Rep, 17 + (ws1.length + ws2.length))) ∧
    sub1 errSample = rule1Rep ∧
    sub1 wsSample = rule1Rep :=
  ⟨tryRule1_at, by decide, by decide⟩

theorem c10_rule1_whitespace_witness :
    tryRule1 none (pat1a ++ ([' '] ++ (pat1b ++ ([' ', ' '] ++ (arrowLit ++ "x".toList))))) =
      some (rule1Rep, 17 + (([' '] : List Char).length + ([' ', ' '] : List Char).length)) :=
  c10_rule1_whitespace.1 none [' '] [' ', ' '] restX rfl (by decide) (by decide)

end TenancyFix
